import Mathlib

/-!
Shallow embedding of the `njses-aws-s3` facade (`src/bucket.ts` together with the
stream utilities in `src/utils.ts`).  The facade is modelled as a family of
functions over an explicit execution state: a key-addressed object store, a
trace of the backend requests issued so far, and a schedule of transport
outcomes (one boolean per request; `true` means the backend accepts the
request, `false` means a transport-level failure).  JavaScript objects holding
metadata are modelled as association lists whose values are `Option String`
(`none` standing for a property that is present with value `undefined`).
-/

namespace NjsesS3

/-- Value of a JavaScript object property in a metadata record: either a
string or the JavaScript value `undefined` (modelled as `none`). -/
abbrev JsVal := Option String

/-- A JavaScript object used as a metadata record: an association list from
property names to values, first occurrence wins on lookup. -/
abbrev JsMap := List (String × JsVal)

/-- Property lookup on a JavaScript object: `none` means the property is
absent, `some none` means it is present with value `undefined`. -/
def jsLookup : JsMap → String → Option JsVal
  | [], _ => none
  | (k, v) :: rest, q => if k = q then some v else jsLookup rest q

/-- Embedding of the JavaScript object spread `{ ...m1, ...m2 }` used by
`putHead` as the default metadata merge: properties of `m1` keep their
enumeration order but take the value from `m2` whenever `m2` also has the
property (even when that value is `undefined`), and properties of `m2` absent
from `m1` are appended. -/
def spread (m1 m2 : JsMap) : JsMap :=
  (m1.map fun kv =>
    match jsLookup m2 kv.1 with
    | some v => (kv.1, v)
    | none => kv)
  ++ m2.filter fun kv => (jsLookup m1 kv.1).isNone

/-- Embedding of `serializeMetadata` from `src/utils.ts`: drops properties
whose value is `undefined` and keeps the (already string) values, via
`value.toString()` which is the identity on strings. -/
def serializeMetadata (m : JsMap) : List (String × String) :=
  m.foldl
    (fun acc kv =>
      match kv.2 with
      | none => acc
      | some v => acc ++ [(kv.1, v)])
    []

/-- View of a plain string-to-string record as a JavaScript object. -/
def jsOfPairs (m : List (String × String)) : JsMap :=
  m.map fun kv => (kv.1, some kv.2)

/-- A stored S3 object: a payload (a sequence of byte chunks, `none` when the
backend reports no body) and a user-metadata record (`none` when the backend
response would carry no `Metadata` field). -/
structure S3Object where
  body : Option (List (List Nat))
  metadata : Option JsMap
deriving DecidableEq

/-- A backend request as constructed by the facade, carrying exactly the
fields the facade fills in on the corresponding SDK command. -/
inductive S3Request where
  | getObj (bucket key : String)
  | headObj (bucket key : String)
  | delObj (bucket key : String)
  | delMany (bucket : String) (keys : List String)
  | copyObj (bucket copySource key : String)
      (directive : Option String) (metadata : Option JsMap)
deriving DecidableEq

/-- A backend response, restricted to the fields the facade inspects. -/
structure S3Response where
  body : Option (List (List Nat)) := none
  metadata : Option JsMap := none
deriving DecidableEq

/-- Error taxonomy of the specification: `notFound` for an absent key,
`backendError` for a transport or service failure, `validationError` for a
rejected caller input. -/
inductive S3Error where
  | notFound
  | backendError
  | validationError
deriving DecidableEq

/-- The remote store: a single bucket's key-to-object mapping. -/
abbrev Store := String → Option S3Object

/-- Recovers the source key from the `CopySource` string
`bucketName ++ "/" ++ oldKey` that `copyRaw` constructs. -/
def srcKeyOf (bucket cs : String) : Option String :=
  if cs.data.take (bucket.data ++ ['/']).length = bucket.data ++ ['/'] then
    some (String.mk (cs.data.drop (bucket.data ++ ['/']).length))
  else none

/-- Semantics of one accepted backend request over the store. -/
def applyReq (r : S3Request) (st : Store) : Except S3Error (Store × S3Response) :=
  match r with
  | .getObj _ k =>
    match st k with
    | none => .error .notFound
    | some o => .ok (st, { body := o.body, metadata := o.metadata })
  | .headObj _ k =>
    match st k with
    | none => .error .notFound
    | some o => .ok (st, { metadata := o.metadata })
  | .delObj _ k => .ok (fun q => if q = k then none else st q, {})
  | .delMany _ keys => .ok (fun q => if keys.contains q then none else st q, {})
  | .copyObj b cs k dir md =>
    match srcKeyOf b cs with
    | none => .error .notFound
    | some sk =>
      match st sk with
      | none => .error .notFound
      | some o =>
        let newObj : S3Object :=
          if dir = some "REPLACE" then { body := o.body, metadata := md } else o
        .ok (fun q => if q = k then some newObj else st q, {})

/-- Execution state threaded through the facade: the store, the trace of the
requests issued so far, and the remaining schedule of transport outcomes. -/
structure ExecState where
  store : Store
  trace : List S3Request
  schedule : List Bool

/-- Whether the next issued request will be accepted by the transport (an
exhausted schedule defaults to acceptance). -/
def nextOk (s : ExecState) : Bool := s.schedule.headD true

/-- Issues one backend request: the request is always recorded on the trace;
on transport acceptance the request semantics run against the store, and a
transport rejection yields `backendError` with the store unchanged. -/
def issue (r : S3Request) (s : ExecState) : ExecState × Except S3Error S3Response :=
  if nextOk s then
    match applyReq r s.store with
    | .ok (st, resp) =>
      ({ store := st, trace := s.trace ++ [r], schedule := s.schedule.tail }, .ok resp)
    | .error e =>
      ({ store := s.store, trace := s.trace ++ [r], schedule := s.schedule.tail }, .error e)
  else
    ({ store := s.store, trace := s.trace ++ [r], schedule := s.schedule.tail },
      .error .backendError)

/-- The facade: a bucket name fixed at construction and the optional
metadata-merge function of `AWSS3BucketConfig`. -/
structure AWSS3Bucket where
  name : String
  mergeMetadata : Option (JsMap → JsMap → JsMap)

/-- Embedding of `AWSS3Bucket.getRaw`: sends one `GetObjectCommand`. -/
def getRaw (b : AWSS3Bucket) (key : String) (s : ExecState) :
    ExecState × Except S3Error S3Response :=
  issue (.getObj b.name key) s

/-- Embedding of `AWSS3Bucket.get`: `s3response.Body || null`. -/
def get (b : AWSS3Bucket) (key : String) (s : ExecState) :
    ExecState × Except S3Error (Option (List (List Nat))) :=
  match getRaw b key s with
  | (s1, .error e) => (s1, .error e)
  | (s1, .ok r) => (s1, .ok r.body)

/-- The replacement character U+FFFD emitted for an invalid byte sequence. -/
def replacementChar : Char := Char.ofNat 0xFFFD

/-- Whether a byte is a UTF-8 continuation byte. -/
def isCont (b : Nat) : Bool := 0x80 ≤ b && b ≤ 0xBF

/-- UTF-8 decoding of a byte sequence into characters, invalid sequences
becoming U+FFFD; models Node's `Buffer.toString` with encoding `utf-8`.  The
first argument is fuel; every step consumes at least one byte, so fuel equal
to the length of the byte list always suffices. -/
def utf8DecodeGo : Nat → List Nat → List Char
  | 0, _ => []
  | _, [] => []
  | Nat.succ fuel, b :: rest =>
    if b < 0x80 then
      Char.ofNat b :: utf8DecodeGo fuel rest
    else if b < 0xC2 then
      replacementChar :: utf8DecodeGo fuel rest
    else if b < 0xE0 then
      match rest with
      | [] => [replacementChar]
      | c1 :: rest1 =>
        if isCont c1 then
          Char.ofNat ((b % 0x20) * 0x40 + c1 % 0x40) :: utf8DecodeGo fuel rest1
        else
          replacementChar :: utf8DecodeGo fuel rest
    else if b < 0xF0 then
      match rest with
      | c1 :: c2 :: rest2 =>
        if isCont c1 && isCont c2 && !(b == 0xE0 && c1 < 0xA0) && !(b == 0xED && 0x9F < c1) then
          Char.ofNat ((b % 0x10) * 0x1000 + (c1 % 0x40) * 0x40 + c2 % 0x40)
            :: utf8DecodeGo fuel rest2
        else
          replacementChar :: utf8DecodeGo fuel rest
      | _ => replacementChar :: utf8DecodeGo fuel rest
    else if b < 0xF5 then
      match rest with
      | c1 :: c2 :: c3 :: rest3 =>
        if isCont c1 && isCont c2 && isCont c3 &&
            !(b == 0xF0 && c1 < 0x90) && !(b == 0xF4 && 0x8F < c1) then
          Char.ofNat ((b % 0x8) * 0x40000 + (c1 % 0x40) * 0x1000 + (c2 % 0x40) * 0x40 + c3 % 0x40)
            :: utf8DecodeGo fuel rest3
        else
          replacementChar :: utf8DecodeGo fuel rest
      | _ => replacementChar :: utf8DecodeGo fuel rest
    else
      replacementChar :: utf8DecodeGo fuel rest

/-- UTF-8 decoding of a byte sequence into a string. -/
def utf8Decode (bytes : List Nat) : String := String.mk (utf8DecodeGo bytes.length bytes)

/-- Embedding of `streamToString` from `src/utils.ts`: collects every chunk
of the stream, concatenates them (`Buffer.concat`) and decodes as UTF-8. -/
def streamToString (chunks : List (List Nat)) : String := utf8Decode chunks.flatten

/-- Embedding of `AWSS3Bucket.getText`: fetches the object, returns the empty
string when there is no body and otherwise drains the stream into a string. -/
def getText (b : AWSS3Bucket) (key : String) (s : ExecState) :
    ExecState × Except S3Error String :=
  match getRaw b key s with
  | (s1, .error e) => (s1, .error e)
  | (s1, .ok r) =>
    match r.body with
    | none => (s1, .ok "")
    | some chunks => (s1, .ok (streamToString chunks))

/-- Embedding of `AWSS3Bucket.deleteRaw`: sends one `DeleteObjectCommand`. -/
def deleteRaw (b : AWSS3Bucket) (key : String) (s : ExecState) :
    ExecState × Except S3Error S3Response :=
  issue (.delObj b.name key) s

/-- Embedding of `AWSS3Bucket.deleteMany`: sends one `DeleteObjectsCommand`
whose object list is the given keys. -/
def deleteMany (b : AWSS3Bucket) (keys : List String) (s : ExecState) :
    ExecState × Except S3Error S3Response :=
  issue (.delMany b.name keys) s

/-- Embedding of `AWSS3Bucket.copyRaw`: sends one `CopyObjectCommand` whose
`CopySource` is `name ++ "/" ++ oldKey` and whose destination is `newKey`;
the two optional parameters are the only command overrides the facade uses
(`MetadataDirective` and `Metadata` from `putHead`). -/
def copyRaw (b : AWSS3Bucket) (oldKey newKey : String)
    (directive : Option String) (metadata : Option JsMap) (s : ExecState) :
    ExecState × Except S3Error S3Response :=
  issue (.copyObj b.name (b.name ++ "/" ++ oldKey) newKey directive metadata) s

/-- Embedding of `AWSS3Bucket.rename`: returns immediately when the two keys
are equal, otherwise copies and then deletes the old key, stopping at the
first failing step. -/
def rename (b : AWSS3Bucket) (oldKey newKey : String) (s : ExecState) :
    ExecState × Except S3Error Unit :=
  if oldKey = newKey then (s, .ok ())
  else
    match copyRaw b oldKey newKey none none s with
    | (s1, .error e) => (s1, .error e)
    | (s1, .ok _) =>
      match deleteRaw b oldKey s1 with
      | (s2, .error e) => (s2, .error e)
      | (s2, .ok _) => (s2, .ok ())

/-- Embedding of `AWSS3Bucket.getHeadRaw`: sends one `HeadObjectCommand`. -/
def getHeadRaw (b : AWSS3Bucket) (key : String) (s : ExecState) :
    ExecState × Except S3Error S3Response :=
  issue (.headObj b.name key) s

/-- Embedding of `AWSS3Bucket.getHead`: `s3response.Metadata || {}` returns
the metadata record of the response, or the empty record when the response
carries none. -/
def getHead (b : AWSS3Bucket) (key : String) (s : ExecState) :
    ExecState × Except S3Error JsMap :=
  match getHeadRaw b key s with
  | (s1, .error e) => (s1, .error e)
  | (s1, .ok r) => (s1, .ok (r.metadata.getD []))

/-- Embedding of `AWSS3Bucket.putHead`: reads the current metadata, computes
the new record with the configured merge function (called with the current
record and the partial record exactly as given) or with the object spread
default, and issues one self-copy with the `REPLACE` metadata directive. -/
def putHead (b : AWSS3Bucket) (key : String) (metadata : JsMap) (s : ExecState) :
    ExecState × Except S3Error Unit :=
  match getHead b key s with
  | (s1, .error e) => (s1, .error e)
  | (s1, .ok current) =>
    let newMetadata :=
      match b.mergeMetadata with
      | some f => f current metadata
      | none => spread current metadata
    match copyRaw b key key (some "REPLACE") (some newMetadata) s1 with
    | (s2, .error e) => (s2, .error e)
    | (s2, .ok _) => (s2, .ok ())

/-- The default chunk size of `blobToReadable` in `src/utils.ts` (64 KiB). -/
def defaultChunkSize : Nat := 1024 * 64

/-- The lazy pull-based stream produced by `blobToReadable`: the blob's bytes,
the chunk size, and the offset cursor. -/
structure BlobStream where
  blob : List Nat
  chunkSize : Nat
  offset : Nat
deriving DecidableEq

/-- One invocation of the stream's `read` callback: past the end of the blob
it pushes `null` (end of stream, modelled as `none`); otherwise it pushes the
slice from the offset to `min (offset + chunkSize) size` and advances the
offset to the end of that slice. -/
def BlobStream.read (s : BlobStream) : Option (List Nat) × BlobStream :=
  if s.blob.length ≤ s.offset then (none, s)
  else
    let e := min (s.offset + s.chunkSize) s.blob.length
    (some ((s.blob.drop s.offset).take (e - s.offset)), { s with offset := e })

/-- Embedding of `blobToReadable`: a fresh stream over the blob with the
given chunk size (the source's optional parameter defaults to
`defaultChunkSize`) and the offset cursor at zero. -/
def blobToReadable (blob : List Nat) (chunkSize : Nat) : BlobStream :=
  { blob := blob, chunkSize := chunkSize, offset := 0 }

/-- Pulls at most `fuel` chunks from the stream, stopping early at the
end-of-stream signal; returns the pulled chunks and the final stream state. -/
def readChunks : Nat → BlobStream → List (List Nat) × BlobStream
  | 0, s => ([], s)
  | Nat.succ n, s =>
    match s.read with
    | (none, s1) => ([], s1)
    | (some c, s1) =>
      let p := readChunks n s1
      (c :: p.1, p.2)

/-- Reference chunking of a byte list: successive slices of `C` bytes. -/
def chunksOf (C : Nat) (l : List Nat) : List (List Nat) :=
  if h : C = 0 ∨ l = [] then []
  else l.take C :: chunksOf C (l.drop C)
termination_by l.length
decreasing_by
  push_neg at h
  simp only [List.length_drop]
  have hl : 0 < l.length := List.length_pos.mpr h.2
  omega

/-- Sample object used by concrete runs: a body of the UTF-8 bytes of "hi"
and one metadata property. -/
def sampleObj : S3Object :=
  { body := some [[0x68, 0x69]], metadata := some [("a", some "1")] }

/-- Sample object with no body and no metadata record. -/
def sampleObjEmpty : S3Object := { body := none, metadata := none }

/-- Sample store: `sampleObj` at key "k", `sampleObjEmpty` at key "n" and at
the empty key, and nothing elsewhere. -/
def sampleStore : Store := fun k =>
  if k = "k" then some sampleObj
  else if k = "n" then some sampleObjEmpty
  else if k = "" then some sampleObjEmpty
  else none

/-- Sample facade with no configured merge function. -/
def sampleBucket : AWSS3Bucket := { name := "b", mergeMetadata := none }

/-- Sample facade whose merge function returns its second argument. -/
def sampleBucketMerge : AWSS3Bucket :=
  { name := "b", mergeMetadata := some fun _ m2 => m2 }

/-- Sample execution state over `sampleStore` with an empty trace and the
given transport schedule. -/
def sampleState (sched : List Bool) : ExecState :=
  { store := sampleStore, trace := [], schedule := sched }

/-- The trace always records the issued request, whatever its outcome. -/
theorem issue_trace (r : S3Request) (s : ExecState) :
    ((issue r s).1).trace = s.trace ++ [r] := by
  unfold issue
  split
  · split <;> rfl
  · rfl

/-- A failed request leaves the store unchanged. -/
theorem issue_store_of_error (r : S3Request) (s : ExecState) (e : S3Error)
    (h : (issue r s).2 = Except.error e) : ((issue r s).1).store = s.store := by
  unfold issue at h ⊢
  by_cases hc : nextOk s = true
  · rw [if_pos hc] at h ⊢
    cases ha : applyReq r s.store with
    | ok p => rw [ha] at h; cases p; simp_all
    | error e2 => rfl
  · rw [if_neg hc]

/-- The backend semantics only fail with `notFound`. -/
theorem applyReq_error (r : S3Request) (st : Store) (e : S3Error)
    (h : applyReq r st = Except.error e) : e = S3Error.notFound := by
  unfold applyReq at h
  cases r <;> (try split at h) <;> (try split at h) <;> (try split at h) <;> simp_all

/-- A failed request reports `notFound` or `backendError`, never
`validationError`. -/
theorem issue_error_kind (r : S3Request) (s : ExecState) (e : S3Error)
    (h : (issue r s).2 = Except.error e) :
    e = S3Error.notFound ∨ e = S3Error.backendError := by
  unfold issue at h
  by_cases hc : nextOk s = true
  · rw [if_pos hc] at h
    cases ha : applyReq r s.store with
    | ok p => rw [ha] at h; cases p; simp at h
    | error e2 =>
      rw [ha] at h
      simp at h
      subst h
      exact Or.inl (applyReq_error _ _ _ ha)
  · rw [if_neg hc] at h
    simp at h
    subst h
    exact Or.inr rfl

/-- The `CopySource` string built by `copyRaw` parses back to the old key. -/
theorem srcKeyOf_self (n k : String) : srcKeyOf n (n ++ "/" ++ k) = some k := by
  unfold srcKeyOf
  have hd : (n ++ "/" ++ k).data = (n.data ++ ['/']) ++ k.data := by
    simp [String.data_append]
  rw [hd, List.take_left, List.drop_left]
  simp

/-- Lookup distributes over list append, first list winning. -/
theorem jsLookup_append (l1 l2 : JsMap) (q : String) :
    jsLookup (l1 ++ l2) q =
      match jsLookup l1 q with
      | some v => some v
      | none => jsLookup l2 q := by
  induction l1 with
  | nil => rfl
  | cons kv rest ih =>
    rcases kv with ⟨k, v⟩
    by_cases hk : k = q
    · simp [jsLookup, hk]
    · simp [jsLookup, hk, ih]

/-- Lookup in the overridden copy of the first spread operand. -/
theorem jsLookup_map_override (A B : JsMap) (q : String) :
    jsLookup
      (A.map fun kv =>
        match jsLookup B kv.1 with
        | some v => (kv.1, v)
        | none => kv) q =
      match jsLookup A q with
      | none => none
      | some v =>
        match jsLookup B q with
        | some w => some w
        | none => some v := by
  induction A with
  | nil => rfl
  | cons kv rest ih =>
    rcases kv with ⟨k, v⟩
    by_cases hk : k = q
    · subst hk
      cases hB : jsLookup B k <;> simp [jsLookup, hB]
    · cases hB : jsLookup B k <;> simp [jsLookup, hk, hB, ih]

/-- Lookup of a property absent from `A` in the filtered second spread
operand. -/
theorem jsLookup_filter_absent (A B : JsMap) (q : String)
    (hA : jsLookup A q = none) :
    jsLookup (B.filter fun kv => (jsLookup A kv.1).isNone) q = jsLookup B q := by
  induction B with
  | nil => rfl
  | cons kv rest ih =>
    rcases kv with ⟨k, v⟩
    by_cases hk : k = q
    · subst hk
      simp [List.filter_cons, hA, jsLookup]
    · cases hp : (jsLookup A k).isNone <;>
        simp [List.filter_cons, hp, jsLookup, hk, ih]

/-- Pointwise description of the object spread: a property of `m2` always
wins (even with value `undefined`) and a property absent from `m2` keeps the
value of `m1`. -/
theorem jsLookup_spread (A B : JsMap) (q : String) :
    jsLookup (spread A B) q =
      match jsLookup B q with
      | some v => some v
      | none => jsLookup A q := by
  unfold spread
  rw [jsLookup_append, jsLookup_map_override]
  cases hA : jsLookup A q with
  | some v => cases hB : jsLookup B q <;> simp
  | none =>
    rw [jsLookup_filter_absent A B q hA]
    cases hB : jsLookup B q <;> simp

/-- The first component of `getHead` agrees with `getHeadRaw`. -/
theorem getHead_fst (b : AWSS3Bucket) (k : String) (s : ExecState) :
    (getHead b k s).1 = (getHeadRaw b k s).1 := by
  unfold getHead
  rcases h : getHeadRaw b k s with ⟨s1, r⟩
  cases r <;> rfl

/-- A failing `getHead` is a failing `getHeadRaw`. -/
theorem getHead_error (b : AWSS3Bucket) (k : String) (s : ExecState) (e : S3Error)
    (h : (getHead b k s).2 = Except.error e) :
    (getHeadRaw b k s).2 = Except.error e := by
  unfold getHead at h
  rcases hr : getHeadRaw b k s with ⟨s1, r⟩
  rw [hr] at h
  cases r <;> simp_all

/-- C6: for every key `k`, `rename(k, k)` is a no-op: it returns success
without issuing any backend request, and store, trace and schedule are all
unchanged. -/
theorem rename_same_key_noop (b : AWSS3Bucket) (k : String) (s : ExecState) :
    rename b k k s = (s, Except.ok ()) := by
  simp [rename]

/-- C9: for distinct keys, when the copy request inside `rename` fails the
delete request is never issued: the copy's error propagates to the caller,
the trace gains only the copy request, and the store is untouched. -/
theorem rename_copy_fail_no_delete (b : AWSS3Bucket) (a c : String) (hne : a ≠ c)
    (s : ExecState) (e : S3Error)
    (hfail : (copyRaw b a c none none s).2 = Except.error e) :
    rename b a c s = ((copyRaw b a c none none s).1, Except.error e) ∧
    ((copyRaw b a c none none s).1).store = s.store ∧
    ((copyRaw b a c none none s).1).trace =
      s.trace ++ [S3Request.copyObj b.name (b.name ++ "/" ++ a) c none none] := by
  refine ⟨?_, issue_store_of_error _ _ _ hfail, issue_trace _ _⟩
  unfold rename
  rw [if_neg hne]
  rcases hcr : copyRaw b a c none none s with ⟨s1, r⟩
  rw [hcr] at hfail
  cases r with
  | error e2 => simp at hfail; subst hfail; rfl
  | ok resp => simp at hfail

/-- Witness for C9 at a concrete input: copying from the absent key "z"
fails with `notFound` and `rename` stops there. -/
theorem rename_copy_fail_no_delete_witness :
    rename sampleBucket "z" "m" (sampleState [true]) =
      ((copyRaw sampleBucket "z" "m" none none (sampleState [true])).1,
        Except.error S3Error.notFound) :=
  (rename_copy_fail_no_delete sampleBucket "z" "m" (by decide) (sampleState [true])
    S3Error.notFound rfl).1

/-- C10: when the initial metadata read inside `putHead` fails, no copy
request is issued: the error propagates, the trace gains only the head
request, and the store is unchanged. -/
theorem putHead_head_fail_no_copy (b : AWSS3Bucket) (k : String) (m : JsMap)
    (s : ExecState) (e : S3Error)
    (hfail : (getHead b k s).2 = Except.error e) :
    putHead b k m s = ((getHead b k s).1, Except.error e) ∧
    ((getHead b k s).1).store = s.store ∧
    ((getHead b k s).1).trace = s.trace ++ [S3Request.headObj b.name k] := by
  have hraw := getHead_error b k s e hfail
  refine ⟨?_, ?_, ?_⟩
  · unfold putHead
    rcases hgh : getHead b k s with ⟨s1, r⟩
    rw [hgh] at hfail
    cases r with
    | error e2 => simp at hfail; subst hfail; rfl
    | ok resp => simp at hfail
  · rw [getHead_fst]
    exact issue_store_of_error _ _ _ hraw
  · rw [getHead_fst]
    exact issue_trace _ _

/-- Witness for C10 at a concrete input: `putHead` on the absent key "z"
fails with `notFound` before any copy. -/
theorem putHead_head_fail_no_copy_witness :
    putHead sampleBucket "z" [("a", some "2")] (sampleState [true, true]) =
      ((getHead sampleBucket "z" (sampleState [true, true])).1,
        Except.error S3Error.notFound) :=
  (putHead_head_fail_no_copy sampleBucket "z" [("a", some "2")]
    (sampleState [true, true]) S3Error.notFound rfl).1

/-- C8: `getHead` on an existing object returns its metadata record, the
empty record (never null: the return type is a record) when the backend
response carries no metadata. -/
theorem getHead_metadata (b : AWSS3Bucket) (k : String) (s : ExecState)
    (o : S3Object) (hobj : s.store k = some o) (hok : nextOk s = true) :
    (getHead b k s).2 = Except.ok (o.metadata.getD []) ∧
    (o.metadata = none → (getHead b k s).2 = Except.ok []) := by
  constructor
  · simp [getHead, getHeadRaw, issue, applyReq, hok, hobj]
  · intro hnone
    simp [getHead, getHeadRaw, issue, applyReq, hok, hobj, hnone]

/-- Witness for C8 at a concrete input: the object at "n" carries no
metadata and `getHead` returns the empty record. -/
theorem getHead_metadata_witness :
    (getHead sampleBucket "n" (sampleState [true])).2 = Except.ok [] :=
  (getHead_metadata sampleBucket "n" (sampleState [true]) sampleObjEmpty rfl rfl).2 rfl

/-- C7: `getText` returns the empty string when the backend reports no body,
and otherwise the UTF-8 decoding of the concatenation of every chunk of the
payload stream; on the body bytes `[0x68, 0x69]` it returns "hi". -/
theorem getText_decodes (b : AWSS3Bucket) (k : String) (s : ExecState) :
    (∀ o : S3Object, s.store k = some o → nextOk s = true →
      (getText b k s).2 = Except.ok
        (match o.body with
        | none => ""
        | some chunks => utf8Decode chunks.flatten)) ∧
    utf8Decode ([[0x68, 0x69]] : List (List Nat)).flatten = "hi" := by
  constructor
  · intro o hobj hok
    cases hb : o.body with
    | none => simp [getText, getRaw, issue, applyReq, hok, hobj, hb]
    | some chunks =>
      simp [getText, getRaw, issue, applyReq, hok, hobj, hb, streamToString]
  · decide

/-- Witness for C7 at a concrete input: the object at "k" has body chunks
`[[0x68, 0x69]]` and `getText` returns "hi". -/
theorem getText_decodes_witness :
    (getText sampleBucket "k" (sampleState [true])).2 = Except.ok "hi" :=
  ((getText_decodes sampleBucket "k" (sampleState [true])).1 sampleObj rfl rfl).trans
    (congrArg Except.ok (by decide))

/-- C5 (amended): the facade performs no key or batch validation: `getRaw`
with any key (the empty key included) and `deleteMany` with any batch (the
empty batch included) always issue the corresponding backend request
unchanged, and a failure is always the backend's (`notFound` or
`backendError`), never a `validationError`. -/
theorem facade_no_validation (b : AWSS3Bucket) (s : ExecState) (key : String)
    (keys : List String) :
    ((getRaw b key s).1).trace = s.trace ++ [S3Request.getObj b.name key] ∧
    ((deleteMany b keys s).1).trace = s.trace ++ [S3Request.delMany b.name keys] ∧
    (∀ e, (getRaw b key s).2 = Except.error e → e ≠ S3Error.validationError) ∧
    (∀ e, (deleteMany b keys s).2 = Except.error e → e ≠ S3Error.validationError) := by
  refine ⟨issue_trace _ _, issue_trace _ _, ?_, ?_⟩ <;>
    intro e he hval <;>
    rcases issue_error_kind _ _ _ he with h | h <;> simp_all

/-- Witness for C5's amended theorem at a concrete input: the empty key is
sent to the backend as-is, and a failing run reports `backendError`, which is
not `validationError`. -/
theorem facade_no_validation_witness :
    ((getRaw sampleBucket "" (sampleState [false])).1).trace =
      [S3Request.getObj "b" ""] ∧
    S3Error.backendError ≠ S3Error.validationError :=
  ⟨by simpa using (facade_no_validation sampleBucket (sampleState [false]) "" []).1,
   (facade_no_validation sampleBucket (sampleState [false]) "" []).2.2.1
     S3Error.backendError rfl⟩

/-- Counterexample to C5 as stated: `getRaw` with the empty key succeeds
against a store holding an object at the empty key (no `ValidationError` is
raised; the request is issued normally), and `deleteMany` with the empty
batch also succeeds, its request carrying the empty key list. -/
theorem no_validation_cex :
    (getRaw sampleBucket "" (sampleState [true])).2 =
      Except.ok { body := none, metadata := none } ∧
    (deleteMany sampleBucket [] (sampleState [true])).2 =
      Except.ok ({} : S3Response) ∧
    (getRaw sampleBucket "" (sampleState [true])).1.trace =
      [S3Request.getObj "b" ""] ∧
    (deleteMany sampleBucket [] (sampleState [true])).1.trace =
      [S3Request.delMany "b" []] :=
  ⟨rfl, rfl, by decide, by decide⟩

/-- C1 (amended): without a configured merge function, `putHead` writes the
object spread of the current metadata with the update: `R[q] = B[q]` for
every property `q` present in `B` — a property whose value is `undefined`
also overrides, and is written as an `undefined`-valued entry — and
`R[q] = A[q]` for every property of the current metadata absent from `B`. -/
theorem putHead_default_merge (b : AWSS3Bucket) (key : String) (B : JsMap)
    (s : ExecState) (o : S3Object) (hm : b.mergeMetadata = none)
    (hobj : s.store key = some o) (hsch : s.schedule = [true, true]) :
    (putHead b key B s).1.trace = s.trace ++
      [S3Request.headObj b.name key,
       S3Request.copyObj b.name (b.name ++ "/" ++ key) key (some "REPLACE")
         (some (spread (o.metadata.getD []) B))] ∧
    (∀ q v, jsLookup B q = some v →
      jsLookup (spread (o.metadata.getD []) B) q = some v) ∧
    (∀ q, jsLookup B q = none →
      jsLookup (spread (o.metadata.getD []) B) q =
        jsLookup (o.metadata.getD []) q) := by
  refine ⟨?_, ?_, ?_⟩
  · simp [putHead, getHead, getHeadRaw, copyRaw, issue, applyReq, nextOk, hm, hobj,
      hsch, srcKeyOf_self]
  · intro q v hq
    rw [jsLookup_spread, hq]
  · intro q hq
    rw [jsLookup_spread, hq]

/-- Witness for C1's amended theorem at a concrete input: merging a fresh
property into the stored metadata writes both properties. -/
theorem putHead_default_merge_witness :
    (putHead sampleBucket "k" [("c", some "2")] (sampleState [true, true])).1.trace =
      [S3Request.headObj "b" "k",
       S3Request.copyObj "b" "b/k" "k" (some "REPLACE")
         (some [("a", some "1"), ("c", some "2")])] :=
  ((putHead_default_merge sampleBucket "k" [("c", some "2")]
      (sampleState [true, true]) sampleObj rfl rfl rfl).1).trans (by decide)

/-- Counterexample to C1 as stated: with current metadata `A = [("a","1")]`
and update `B = [("a", undefined)]`, the self-copy issued by `putHead`
carries the map `[("a", undefined)]`: the `undefined`-valued property does
appear as an override, and `R["a"]` is `undefined`, not `A["a"] = "1"`. -/
theorem putHead_undefined_overrides_cex :
    (putHead sampleBucket "k" [("a", none)] (sampleState [true, true])).1.trace =
      [S3Request.headObj "b" "k",
       S3Request.copyObj "b" "b/k" "k" (some "REPLACE") (some [("a", none)])] ∧
    jsLookup (sampleObj.metadata.getD []) "a" = some (some "1") ∧
    jsLookup [("a", (none : JsVal))] "a" = some none ∧
    (some (none : JsVal)) ≠ some (some "1") :=
  ⟨by decide, by decide, by decide, by decide⟩

/-- C2 (amended): with a merge function configured, `putHead` first reads the
current metadata, calls the merge function with the current record and the
partial record exactly as given (no string serialization: `undefined`-valued
entries are passed through), and issues exactly one self-copy — source key
and destination key both the given key — with the `REPLACE` metadata
directive and the merge function's result, used verbatim, as the full
metadata set. -/
theorem putHead_merge_calls (b : AWSS3Bucket) (f : JsMap → JsMap → JsMap)
    (key : String) (B : JsMap) (s : ExecState) (o : S3Object)
    (hm : b.mergeMetadata = some f) (hobj : s.store key = some o)
    (hsch : s.schedule = [true, true]) :
    (putHead b key B s).1.trace = s.trace ++
      [S3Request.headObj b.name key,
       S3Request.copyObj b.name (b.name ++ "/" ++ key) key (some "REPLACE")
         (some (f (o.metadata.getD []) B))] ∧
    (putHead b key B s).2 = Except.ok () := by
  constructor <;>
    simp [putHead, getHead, getHeadRaw, copyRaw, issue, applyReq, nextOk, hm, hobj,
      hsch, srcKeyOf_self]

/-- Witness for C2's amended theorem at a concrete input, with the merge
function returning its second argument. -/
theorem putHead_merge_calls_witness :
    (putHead sampleBucketMerge "k" [("x", some "9")] (sampleState [true, true])).2 =
      Except.ok () :=
  (putHead_merge_calls sampleBucketMerge (fun _ m2 => m2) "k" [("x", some "9")]
    (sampleState [true, true]) sampleObj rfl rfl rfl).2

/-- Counterexample to C2 as stated: the merge function receives the partial
metadata verbatim, not serialized to strings.  With the merge function
returning its second argument and the update `[("x", undefined)]`, the
issued copy carries `[("x", undefined)]`, whereas serializing the update (as
`serializeMetadata` does) would drop the `undefined`-valued property and
yield the empty record — a different request. -/
theorem putHead_merge_unserialized_cex :
    (putHead sampleBucketMerge "k" [("x", none)] (sampleState [true, true])).1.trace =
      [S3Request.headObj "b" "k",
       S3Request.copyObj "b" "b/k" "k" (some "REPLACE") (some [("x", none)])] ∧
    jsOfPairs (serializeMetadata [("x", (none : JsVal))]) = ([] : JsMap) ∧
    (some [("x", (none : JsVal))] : Option JsMap) ≠ some ([] : JsMap) :=
  ⟨by decide, by decide, by decide⟩

/-- C3: for distinct keys with the copy accepted, `rename(a, b)` issues
exactly one copy request and then one delete request, in that order; when
the delete request then fails, the caller observes the delete step's error
and the object exists at both keys (duplicate, not rolled back). -/
theorem rename_copy_then_delete (b : AWSS3Bucket) (a c : String) (hne : a ≠ c)
    (s : ExecState) (o : S3Object) (rest : List Bool)
    (hobj : s.store a = some o) (hsch : s.schedule = true :: rest) :
    (rename b a c s).1.trace = s.trace ++
      [S3Request.copyObj b.name (b.name ++ "/" ++ a) c none none,
       S3Request.delObj b.name a] ∧
    (rest.headD true = false →
      (rename b a c s).2 = Except.error S3Error.backendError ∧
      (rename b a c s).1.store a = some o ∧
      (rename b a c s).1.store c = some o) := by
  have hsrc := srcKeyOf_self b.name a
  by_cases hdel : rest.headD true = true <;>
    rw [List.headD_eq_head?_getD] at hdel
  · refine ⟨?_, ?_⟩
    · simp [rename, hne, copyRaw, deleteRaw, issue, applyReq, nextOk, hobj, hsch,
        hsrc, hdel]
    · intro hfalse
      rw [List.headD_eq_head?_getD, hdel] at hfalse
      exact absurd hfalse (by simp)
  · refine ⟨?_, fun _ => ⟨?_, ?_, ?_⟩⟩ <;>
      simp [rename, hne, copyRaw, deleteRaw, issue, applyReq, nextOk, hobj, hsch,
        hsrc, hdel]

/-- Witness for C3 at a concrete input: the schedule accepts the copy and
rejects the delete; both requests are on the trace, the caller sees
`backendError`, and the object sits at both keys. -/
theorem rename_copy_then_delete_witness :
    (rename sampleBucket "k" "m" (sampleState [true, false])).1.trace =
      [S3Request.copyObj "b" "b/k" "m" none none, S3Request.delObj "b" "k"] ∧
    (rename sampleBucket "k" "m" (sampleState [true, false])).2 =
      Except.error S3Error.backendError ∧
    (rename sampleBucket "k" "m" (sampleState [true, false])).1.store "k" =
      some sampleObj ∧
    (rename sampleBucket "k" "m" (sampleState [true, false])).1.store "m" =
      some sampleObj := by
  have h := rename_copy_then_delete sampleBucket "k" "m" (by decide)
    (sampleState [true, false]) sampleObj [false] rfl rfl
  exact ⟨h.1.trans (by decide), h.2 rfl⟩

/-- The reference chunking is empty exactly for a zero chunk size or an
empty input. -/
theorem chunksOf_eq_nil_iff (C : Nat) (x : List Nat) :
    chunksOf C x = [] ↔ (C = 0 ∨ x = []) := by
  rw [chunksOf]
  split <;> simp_all

/-- One step of the ceiling-division recurrence behind the chunk count. -/
theorem ceilDiv_step (L C : Nat) (hC : 0 < C) (hL : 0 < L) :
    (L - C + C - 1) / C + 1 = (L + C - 1) / C := by
  by_cases h : C ≤ L
  · have h1 : L - C + C = L := Nat.sub_add_cancel h
    have h2 : L + C - 1 = (L - 1) + C := by omega
    rw [h1, h2, Nat.add_div_right _ hC]
  · have h1 : L - C = 0 := by omega
    have h2 : (C - 1) / C = 0 := Nat.div_eq_of_lt (by omega)
    have h3 : L + C - 1 = (L - 1) + C := by omega
    have h4 : (L - 1) / C = 0 := Nat.div_eq_of_lt (by omega)
    rw [h1, h3, Nat.add_div_right _ hC, h4]
    simpa using h2

/-- The reference chunking has exactly the ceiling of length over chunk size
many chunks. -/
theorem chunksOf_length (C : Nat) (hC : 0 < C) (l : List Nat) :
    (chunksOf C l).length = (l.length + C - 1) / C := by
  have H : ∀ n (l : List Nat), l.length ≤ n →
      (chunksOf C l).length = (l.length + C - 1) / C := by
    intro n
    induction n with
    | zero =>
      intro l hl
      have hnil : l = [] := List.eq_nil_of_length_eq_zero (Nat.le_zero.mp hl)
      subst hnil
      rw [chunksOf]
      simp [Nat.div_eq_of_lt (show C - 1 < C by omega)]
    | succ n ih =>
      intro l hl
      rw [chunksOf]
      by_cases h0 : C = 0 ∨ l = []
      · rcases h0 with h0 | h0
        · omega
        · subst h0
          rw [dif_pos (Or.inr rfl)]
          simp [Nat.div_eq_of_lt (show C - 1 < C by omega)]
      · rw [dif_neg h0]
        push_neg at h0
        have hpos : 0 < l.length := List.length_pos.mpr h0.2
        have hlen : (l.drop C).length ≤ n := by
          rw [List.length_drop]; omega
        rw [List.length_cons, ih (l.drop C) hlen, List.length_drop]
        exact ceilDiv_step l.length C hC hpos
  exact H l.length l (le_refl _)

/-- Concatenating the reference chunking recovers the input bytes. -/
theorem chunksOf_flatten (C : Nat) (hC : 0 < C) (l : List Nat) :
    (chunksOf C l).flatten = l := by
  have H : ∀ n (l : List Nat), l.length ≤ n → (chunksOf C l).flatten = l := by
    intro n
    induction n with
    | zero =>
      intro l hl
      have hnil : l = [] := List.eq_nil_of_length_eq_zero (Nat.le_zero.mp hl)
      subst hnil
      rw [chunksOf]
      simp
    | succ n ih =>
      intro l hl
      rw [chunksOf]
      by_cases h0 : C = 0 ∨ l = []
      · rcases h0 with h0 | h0
        · omega
        · subst h0
          rw [dif_pos (Or.inr rfl)]
          rfl
      · rw [dif_neg h0]
        push_neg at h0
        have hpos : 0 < l.length := List.length_pos.mpr h0.2
        have hlen : (l.drop C).length ≤ n := by
          rw [List.length_drop]; omega
        rw [List.flatten_cons, ih (l.drop C) hlen, List.take_append_drop]
  exact H l.length l (le_refl _)

/-- Every chunk of the reference chunking other than the last has exactly the
chunk size. -/
theorem chunksOf_get?_of_not_last (C : Nat) (hC : 0 < C) (l : List Nat) (i : Nat)
    (h : i + 1 < (chunksOf C l).length) :
    ((chunksOf C l).get? i).map List.length = some C := by
  have H : ∀ n (l : List Nat) (i : Nat), l.length ≤ n →
      i + 1 < (chunksOf C l).length →
      ((chunksOf C l).get? i).map List.length = some C := by
    intro n
    induction n with
    | zero =>
      intro l i hl h
      have hnil : l = [] := List.eq_nil_of_length_eq_zero (Nat.le_zero.mp hl)
      subst hnil
      rw [chunksOf] at h
      simp at h
    | succ n ih =>
      intro l i hl h
      rw [chunksOf] at h ⊢
      by_cases h0 : C = 0 ∨ l = []
      · rw [dif_pos h0] at h; simp at h
      · rw [dif_neg h0] at h ⊢
        push_neg at h0
        have hpos : 0 < l.length := List.length_pos.mpr h0.2
        have hlen : (l.drop C).length ≤ n := by
          rw [List.length_drop]; omega
        cases i with
        | zero =>
          have htail : l.drop C ≠ [] := by
            intro hdnil
            rw [List.length_cons,
              (chunksOf_eq_nil_iff C (l.drop C)).mpr (Or.inr hdnil)] at h
            simp at h
          have hCle : C ≤ l.length := by
            by_contra hlt
            exact htail (List.drop_eq_nil_of_le (by omega))
          simp [List.length_take, Nat.min_eq_left hCle]
        | succ j =>
          rw [List.length_cons] at h
          simpa using ih (l.drop C) j hlen (by omega)
  exact H l.length l i (le_refl _) h

/-- The last chunk of the reference chunking of a non-empty input has the
length stated by the specification: the remainder of the length by the chunk
size, or the full chunk size when that remainder is zero. -/
theorem chunksOf_getLast (C : Nat) (hC : 0 < C) (l : List Nat) (hl : l ≠ []) :
    ((chunksOf C l).map List.length).getLast? =
      some (if l.length % C = 0 then C else l.length % C) := by
  have H : ∀ n (l : List Nat), l.length ≤ n → l ≠ [] →
      ((chunksOf C l).map List.length).getLast? =
        some (if l.length % C = 0 then C else l.length % C) := by
    intro n
    induction n with
    | zero =>
      intro l hl hne
      exact absurd (List.eq_nil_of_length_eq_zero (Nat.le_zero.mp hl)) hne
    | succ n ih =>
      intro l hl hne
      rw [chunksOf, dif_neg (by push_neg; exact ⟨by omega, hne⟩)]
      have hpos : 0 < l.length := List.length_pos.mpr hne
      by_cases hdrop : l.drop C = []
      · rw [(chunksOf_eq_nil_iff C (l.drop C)).mpr (Or.inr hdrop)]
        have hle : l.length ≤ C := by
          by_contra hgt
          have hld : (l.drop C).length = l.length - C := List.length_drop _ _
          rw [hdrop] at hld
          simp at hld
          omega
        rcases Nat.lt_or_ge l.length C with hlt | hge
        · have hmod : l.length % C = l.length := Nat.mod_eq_of_lt hlt
          simp only [List.map_cons, List.map_nil, List.getLast?_singleton]
          rw [List.length_take, Nat.min_eq_right hle, hmod, if_neg (by omega)]
        · have heq : l.length = C := le_antisymm hle hge
          simp [List.length_take, heq, Nat.mod_self]
      · have hCpos : C < l.length := by
          by_contra hge
          exact hdrop (List.drop_eq_nil_of_le (by omega))
        have hlen : (l.drop C).length ≤ n := by
          rw [List.length_drop]; omega
        rcases hr : chunksOf C (l.drop C) with _ | ⟨r, rs⟩
        · rcases (chunksOf_eq_nil_iff C (l.drop C)).mp hr with h | h
          · omega
          · exact absurd h hdrop
        · have htl := ih (l.drop C) hlen hdrop
          rw [hr] at htl
          rw [List.map_cons, List.map_cons, List.getLast?_cons_cons, ← List.map_cons,
            htl]
          rw [List.length_drop] at *
          rw [Nat.mod_eq_sub_mod (le_of_lt hCpos)]
  exact H l.length l (le_refl _) hl

/-- With a positive chunk size and enough reads, the stream produced by
`blobToReadable` emits exactly the reference chunking of the tail at its
offset cursor, ending with the cursor at the blob's size. -/
theorem readChunks_eq_chunksOf (C : Nat) (hC : 0 < C) (blob : List Nat) :
    ∀ fuel off, (chunksOf C (blob.drop off)).length < fuel → off ≤ blob.length →
    readChunks fuel ⟨blob, C, off⟩ =
      (chunksOf C (blob.drop off), ⟨blob, C, blob.length⟩) := by
  intro fuel
  induction fuel with
  | zero => intro off hfuel hoff; omega
  | succ n ih =>
    intro off hfuel hoff
    by_cases hend : blob.length ≤ off
    · have hdrop : blob.drop off = [] := List.drop_eq_nil_of_le hend
      have hoffeq : off = blob.length := le_antisymm hoff hend
      have hread : (⟨blob, C, off⟩ : BlobStream).read = (none, ⟨blob, C, off⟩) := by
        unfold BlobStream.read
        dsimp only
        rw [if_pos hend]
      rw [readChunks, hread, hdrop, (chunksOf_eq_nil_iff C []).mpr (Or.inr rfl), hoffeq]
    · push_neg at hend
      have hchunk : (blob.drop off).take (min (off + C) blob.length - off) =
          (blob.drop off).take C := by
        rw [List.take_eq_take, List.length_drop]
        omega
      have hread : (⟨blob, C, off⟩ : BlobStream).read =
          (some ((blob.drop off).take C), ⟨blob, C, min (off + C) blob.length⟩) := by
        unfold BlobStream.read
        dsimp only
        rw [if_neg (by omega), hchunk]
      have hdropeq : blob.drop (off + C) = blob.drop (min (off + C) blob.length) := by
        rcases le_or_lt (off + C) blob.length with h | h
        · rw [Nat.min_eq_left h]
        · rw [Nat.min_eq_right (le_of_lt h)]
          exact (List.drop_eq_nil_of_le (by omega)).trans
            (List.drop_eq_nil_of_le (by omega)).symm
      have hcons : chunksOf C (blob.drop off) =
          (blob.drop off).take C ::
            chunksOf C (blob.drop (min (off + C) blob.length)) := by
        rw [chunksOf, dif_neg (by
          push_neg
          refine ⟨by omega, ?_⟩
          intro hnil
          have hld := congrArg List.length hnil
          rw [List.length_drop] at hld
          simp at hld
          omega)]
        rw [List.drop_drop, hdropeq]
      have hfuel2 :
          (chunksOf C (blob.drop (min (off + C) blob.length))).length < n := by
        rw [hcons, List.length_cons] at hfuel
        omega
      have hoff2 : min (off + C) blob.length ≤ blob.length := by omega
      rw [readChunks, hread]
      dsimp only
      rw [ih (min (off + C) blob.length) hfuel2 hoff2, hcons]

/-- C4: for a blob of size `S` and a positive chunk size `C`, the stream
produced by `blobToReadable` yields exactly `ceil(S/C)` chunks — each of size
`C` except possibly the last, whose size is `S mod C` (or `C` when
`S mod C = 0`) — whose concatenation is the whole blob (total bytes emitted
`S`), after which the stream signals end-of-stream; the source's default
chunk size is 64 KiB. -/
theorem blobToReadable_chunks (blob : List Nat) (C : Nat) (hC : 0 < C) :
    (readChunks ((blob.length + C - 1) / C + 1) (blobToReadable blob C)).1.length =
      (blob.length + C - 1) / C ∧
    (readChunks ((blob.length + C - 1) / C + 1) (blobToReadable blob C)).1.flatten =
      blob ∧
    (∀ i, i + 1 < (blob.length + C - 1) / C →
      ((readChunks ((blob.length + C - 1) / C + 1)
          (blobToReadable blob C)).1.get? i).map List.length = some C) ∧
    (blob ≠ [] →
      ((readChunks ((blob.length + C - 1) / C + 1)
          (blobToReadable blob C)).1.map List.length).getLast? =
        some (if blob.length % C = 0 then C else blob.length % C)) ∧
    (readChunks ((blob.length + C - 1) / C + 1)
        (blobToReadable blob C)).2.read.1 = none ∧
    defaultChunkSize = 65536 := by
  have hlen0 := chunksOf_length C hC blob
  have hrun := readChunks_eq_chunksOf C hC blob ((blob.length + C - 1) / C + 1) 0
    (by rw [List.drop_zero, hlen0]; omega) (Nat.zero_le _)
  rw [List.drop_zero] at hrun
  have hbr : blobToReadable blob C = (⟨blob, C, 0⟩ : BlobStream) := rfl
  rw [hbr, hrun]
  refine ⟨hlen0, chunksOf_flatten C hC blob, ?_, ?_, ?_, by decide⟩
  · intro i hi
    exact chunksOf_get?_of_not_last C hC blob i (by rw [hlen0]; omega)
  · intro hne
    exact chunksOf_getLast C hC blob hne
  · show (⟨blob, C, blob.length⟩ : BlobStream).read.1 = none
    unfold BlobStream.read
    dsimp only
    rw [if_pos (le_refl _)]

/-- Witness for C4 at a concrete input: a three-byte blob with chunk size two
is emitted whole and the stream then signals end-of-stream. -/
theorem blobToReadable_chunks_witness :
    (readChunks ((([1, 2, 3] : List Nat).length + 2 - 1) / 2 + 1)
        (blobToReadable [1, 2, 3] 2)).1.flatten = [1, 2, 3] ∧
    (readChunks ((([1, 2, 3] : List Nat).length + 2 - 1) / 2 + 1)
        (blobToReadable [1, 2, 3] 2)).2.read.1 = none :=
  ⟨(blobToReadable_chunks [1, 2, 3] 2 (by decide)).2.1,
   (blobToReadable_chunks [1, 2, 3] 2 (by decide)).2.2.2.2.1⟩

end NjsesS3
